import Mathlib

/-!
Verification development for the LLM-Deliberation Docent pipeline.

Shallow embedding of `docent_trajectory_parser.py` and
`docent_proper_ingestion.py`.  Strings are modelled as `List Char`;
Python dictionaries with `.get` defaults become `Option`-valued record
fields; exceptions become `Except`; the three regular expressions of
`_parse_round` are modelled operationally (leftmost search, non-greedy
capture, non-overlapping scan), following CPython `re` semantics.
-/

namespace Docent

abbrev Str := List Char

/-- Python `\s` (ASCII portion): space, tab, newline, carriage return,
vertical tab, form feed. -/
def isPySpace (c : Char) : Bool :=
  c = ' ' || c = '\t' || c = '\n' || c = '\r' || c = '\x0b' || c = '\x0c'

/-- Python `str.strip()`: drop whitespace from both ends. -/
def pyStrip (s : Str) : Str :=
  ((s.dropWhile isPySpace).reverse.dropWhile isPySpace).reverse

/-- Python `str.split(',')`. -/
def splitComma : Str → List Str
  | [] => [[]]
  | c :: rest =>
    let r := splitComma rest
    if c = ',' then [] :: r
    else
      match r with
      | h :: t => (c :: h) :: t
      | [] => [[c]]

/-- First occurrence of `tag` as a contiguous substring of `s`:
returns the text before the occurrence and the text after it. -/
def splitFirst (tag : Str) : Str → Option (Str × Str)
  | [] => if tag = [] then some ([], []) else none
  | c :: rest =>
    if tag.isPrefixOf (c :: rest) then some ([], (c :: rest).drop tag.length)
    else
      match splitFirst tag rest with
      | some (pre, post) => some (c :: pre, post)
      | none => none

/-- `tag` occurs in `s` starting at index `i`. -/
def occursAt (tag s : Str) (i : Nat) : Bool :=
  tag.isPrefixOf (s.drop i)

/-- `re.search(open + non-greedy-group + close, s, re.DOTALL)`:
content between the first opening tag and the first closing tag after
it; `none` when the pattern does not match anywhere. -/
def searchBetween (openT closeT s : Str) : Option Str :=
  match splitFirst openT s with
  | none => none
  | some (_, afterOpen) =>
    match splitFirst closeT afterOpen with
    | none => none
    | some (content, _) => some content

def dealOpenTag : Str := ['<', 'D', 'E', 'A', 'L', '>']
def dealCloseTag : Str := ['<', '/', 'D', 'E', 'A', 'L', '>']
def scratchOpenTag : Str := ['<', 'S', 'C', 'R', 'A', 'T', 'C', 'H', 'P', 'A', 'D', '>']
def scratchCloseTag : Str := ['<', '/', 'S', 'C', 'R', 'A', 'T', 'C', 'H', 'P', 'A', 'D', '>']
def answerOpenTag : Str := ['<', 'A', 'N', 'S', 'W', 'E', 'R', '>']
def answerCloseTag : Str := ['<', '/', 'A', 'N', 'S', 'W', 'E', 'R', '>']

/-- Capture of one successful match of `\s*([^<]+)\s*` against a
maximal run of non-`<` characters: the leading-whitespace-stripped run,
except that a whitespace-only run yields its last character (the
backtracking of the leading `\s*` leaves one character for `[^<]+`). -/
def dealCapture (run : Str) : Str :=
  if run.dropWhile isPySpace = [] then run.drop (run.length - 1)
  else run.dropWhile isPySpace

/-- One left-to-right non-overlapping scan of
`re.findall(r'<DEAL>\s*([^<]+)\s*</DEAL>', s)`.  At each position with
an opening tag, the match succeeds iff the maximal run of non-`<`
characters after it is non-empty and immediately followed by the
closing tag; a successful match resumes the scan after the closing
tag, a failed position advances by one character.  `fuel` bounds the
number of steps; each step consumes at least one character. -/
def dealScanAux : Nat → Str → List Str
  | 0, _ => []
  | _ + 1, [] => []
  | fuel + 1, c :: rest =>
    if dealOpenTag.isPrefixOf (c :: rest) then
      let afterOpen := (c :: rest).drop dealOpenTag.length
      let run := afterOpen.takeWhile (fun ch => ch ≠ '<')
      let restAfter := afterOpen.dropWhile (fun ch => ch ≠ '<')
      if run ≠ [] ∧ dealCloseTag.isPrefixOf restAfter then
        dealCapture run :: dealScanAux fuel (restAfter.drop dealCloseTag.length)
      else dealScanAux fuel rest
    else dealScanAux fuel rest

/-- `re.findall(r'<DEAL>\s*([^<]+)\s*</DEAL>', s)`. -/
def findallDeals (s : Str) : List Str := dealScanAux s.length s

/-! ## Data model of the trajectory parser -/

/-- One value of the agent-configuration mapping (`_load_config`). -/
structure AgentConfig where
  short_name : Str
  player_type : Str
  strategy : Str
  model : Str
deriving DecidableEq, Repr

abbrev CfgMap := List (Str × AgentConfig)

/-- Python-dict insertion: overwrite in place when the key exists,
else append. -/
def insertCfg : CfgMap → Str → AgentConfig → CfgMap
  | [], k, v => [(k, v)]
  | (k', v') :: rest, k, v =>
    if k' = k then (k, v) :: rest else (k', v') :: insertCfg rest k v

/-- `config.get(name)`: first (unique) binding of the key. -/
def cfgGet : CfgMap → Str → Option AgentConfig
  | [], _ => none
  | (k', v) :: rest, k => if k' = k then some v else cfgGet rest k

/-- Body of `_load_config`: fold over the lines of `config.txt`;
a line with at least 5 comma-separated fields (after stripping the
whole line) binds field 0 to fields 1–4, shorter lines are skipped. -/
def loadConfigLines (lines : List Str) : CfgMap :=
  lines.foldl
    (fun cfg line =>
      let parts := splitComma (pyStrip line)
      if 5 ≤ parts.length then
        insertCfg cfg (parts.getD 0 [])
          ⟨parts.getD 1 [], parts.getD 2 [], parts.getD 3 [], parts.getD 4 []⟩
      else cfg)
    []

/-- `_load_config`: `none` models a missing `config.txt` (the
`config_path.exists()` guard), yielding an empty mapping. -/
def load_config : Option (List Str) → CfgMap
  | none => []
  | some lines => loadConfigLines lines

/-- One entry of a raw trajectory's `rounds` list; `none` models an
absent key (every access in the source goes through `.get` with a
default). -/
structure RawRound where
  agent : Option Str
  prompt : Option Str
  full_answer : Option Str
  public_answer : Option Str
deriving DecidableEq, Repr

/-- Result record of `_parse_round`. -/
structure ParsedRound where
  round_index : Nat
  agent : Str
  agent_config : Option AgentConfig
  prompt : Str
  full_answer : Str
  public_answer : Str
  deals_proposed : List Str
  scratchpad_reasoning : Option Str
  message_length : Nat
  has_scratchpad : Bool
  has_deal : Bool
deriving DecidableEq, Repr

/-- `_parse_round(round_data, round_idx)` with the enclosing object's
`self.config` passed explicitly. -/
def parse_round (config : CfgMap) (rd : RawRound) (round_idx : Nat) : ParsedRound :=
  let agent := rd.agent.getD []
  let fa := rd.full_answer.getD []
  let deals := findallDeals fa
  let scratchpad_content := (searchBetween scratchOpenTag scratchCloseTag fa).map pyStrip
  let answer :=
    match searchBetween answerOpenTag answerCloseTag fa with
    | some m => pyStrip m
    | none => rd.public_answer.getD []
  { round_index := round_idx
    agent := agent
    agent_config := cfgGet config agent
    prompt := rd.prompt.getD []
    full_answer := fa
    public_answer := answer
    deals_proposed := deals
    scratchpad_reasoning := scratchpad_content
    message_length := fa.length
    has_scratchpad := scratchpad_content.isSome
    has_deal := decide (0 < deals.length) }

/-- One raw trajectory file's JSON content (the keys read by
`parse_trajectory_file`). -/
structure RawTrajectory where
  slot_assignment : Option (List Str)
  rounds : Option (List RawRound)
  finished_rounds : Option Nat
deriving Repr

structure TrajMeta where
  config : CfgMap
  total_rounds : Nat
  finished_rounds : Nat
deriving DecidableEq, Repr

structure ParsedData where
  filename : Str
  slot_assignment : List Str
  rounds : List ParsedRound
  metadata : TrajMeta
deriving DecidableEq, Repr

/-- `parse_trajectory_file`, after the JSON has been decoded (I/O and
decoding failures are modelled at the `process_all_trajectories`
level). -/
def parse_trajectory_file (config : CfgMap) (filename : Str)
    (data : RawTrajectory) : ParsedData :=
  let rounds := data.rounds.getD []
  { filename := filename
    slot_assignment := data.slot_assignment.getD []
    rounds := rounds.enum.map (fun p => parse_round config p.2 p.1)
    metadata :=
      { config := config
        total_rounds := rounds.length
        finished_rounds := data.finished_rounds.getD 0 } }

/-- One element of a Run's `messages` list. -/
structure Message where
  role : Str
  content : Str
deriving DecidableEq, Repr

structure RunMeta where
  filename : Str
  experiment_type : Str
  total_rounds : Nat
deriving DecidableEq, Repr

structure Run where
  messages : List Message
  metadata : RunMeta
deriving DecidableEq, Repr

/-- Messages contributed by one round in `convert_to_docent_format`:
a user message when the prompt is truthy (non-empty), then always one
assistant message whose content is `public_answer or full_answer`. -/
def roundMessages (r : ParsedRound) : List Message :=
  (if r.prompt = [] then [] else [{ role := "user".toList, content := r.prompt }]) ++
    [{ role := "assistant".toList
       content := if r.public_answer = [] then r.full_answer else r.public_answer }]

/-- `convert_to_docent_format`: one Run per trajectory. -/
def convert_to_docent_format (p : ParsedData) : List Run :=
  [{ messages := p.rounds.flatMap roundMessages
     metadata :=
       { filename := p.filename
         experiment_type := "multi_agent_negotiation".toList
         total_rounds := p.metadata.total_rounds } }]

/-- Body of the `for json_file in json_files` loop: on success extend
the run list and the processed-file list, on a raised exception leave
both unchanged (the `except` arm only prints). -/
def processStep {α ε : Type} (readF : α → Except ε RawTrajectory)
    (nameOf : α → Str) (config : CfgMap)
    (acc : List Run × List α) (f : α) : List Run × List α :=
  match readF f with
  | .ok data =>
    (acc.1 ++ convert_to_docent_format (parse_trajectory_file config (nameOf f) data),
     acc.2 ++ [f])
  | .error _ => acc

/-- `process_all_trajectories`: fold over the discovered files;
`readF` models reading and JSON-decoding one file (the fallible part
of `parse_trajectory_file`, wrapped by the per-file `try/except`);
`nameOf` models `Path(filepath).name`.  Returns the accumulated run
list and the list of files that did not raise. -/
def process_all_trajectories {α ε : Type} (readF : α → Except ε RawTrajectory)
    (nameOf : α → Str) (config : CfgMap) (files : List α) :
    List Run × List α :=
  files.foldl (processStep readF nameOf config) ([], [])

/-! ## Data model of the ingestion uploader -/

/-- Metadata of one run as read back from the intermediate JSON
artifact (`docent_prepared_data.json`); `total_rounds` goes through
`.get('total_rounds', 0)` so it is optional here. -/
structure UpRunMeta where
  filename : Str
  total_rounds : Option Nat
deriving DecidableEq, Repr

structure UpRun where
  messages : List Message
  metadata : UpRunMeta
deriving DecidableEq, Repr

/-- A typed chat message (`UserMessage` / `AssistantMessage`). -/
inductive ChatMessage where
  | user (content : Str)
  | assistant (content : Str)
deriving DecidableEq, Repr

/-- The message-construction loop of `create_agent_runs_from_data`:
a message with role `'user'` becomes a `UserMessage`, role
`'assistant'` an `AssistantMessage`, and any other role is silently
dropped (the `if/elif` has no `else`). -/
def convertMessages (msgs : List Message) : List ChatMessage :=
  msgs.flatMap
    (fun m =>
      if m.role = "user".toList then [ChatMessage.user m.content]
      else if m.role = "assistant".toList then [ChatMessage.assistant m.content]
      else [])

/-- One `AgentRun` as built by the uploader.  The three scores are
produced by `float(...)` of exact non-negative integers (a round
count, a list length, a 1-based batch index), so they are modelled by
the naturals they coerce from; by construction the scores dictionary
holds no non-numeric value. -/
structure AgentRunM where
  name : Str
  description : Str
  transcript_messages : List ChatMessage
  score_total_rounds : Nat
  score_message_count : Nat
  score_session_id : Nat
deriving DecidableEq, Repr

/-- `create_agent_runs_from_data`, after the artifact has been
decoded: `for i, run_data in enumerate(runs_data)`. -/
def create_agent_runs_from_data (runs_data : List UpRun) : List AgentRunM :=
  runs_data.enum.map
    (fun p =>
      let i := p.1
      let run_data := p.2
      let messages := convertMessages run_data.messages
      { name := "Negotiation Session ".toList ++ (Nat.repr (i + 1)).toList
        description :=
          "Agent negotiation session from ".toList ++ run_data.metadata.filename
        transcript_messages := messages
        score_total_rounds := run_data.metadata.total_rounds.getD 0
        score_message_count := messages.length
        score_session_id := i + 1 })

/-- `ingest_to_collection`: build the agent runs, submit the whole
batch in one call (`submit` models `client.add_agent_runs`, which may
raise), and report `(True, len(agent_runs))` on success or
`(False, 0)` when the call raised. -/
def ingest_to_collection {ε : Type} (submit : List AgentRunM → Except ε Unit)
    (runs_data : List UpRun) : Bool × Nat :=
  let agent_runs := create_agent_runs_from_data runs_data
  match submit agent_runs with
  | .ok _ => (true, agent_runs.length)
  | .error _ => (false, 0)

/-! ## Default elements (used by `List.getD` in theorem statements) -/

def defaultMessage : Message := { role := [], content := [] }

def defaultParsedRound : ParsedRound :=
  { round_index := 0, agent := [], agent_config := none, prompt := [],
    full_answer := [], public_answer := [], deals_proposed := [],
    scratchpad_reasoning := none, message_length := 0,
    has_scratchpad := false, has_deal := false }

def defaultRun : Run :=
  { messages := [], metadata := { filename := [], experiment_type := [], total_rounds := 0 } }

def defaultUpRun : UpRun := { messages := [], metadata := { filename := [], total_rounds := none } }

def defaultAgentRun : AgentRunM :=
  { name := [], description := [], transcript_messages := [],
    score_total_rounds := 0, score_message_count := 0, score_session_id := 0 }

/-- `isOkB e` is true exactly when the fallible computation `e`
returned normally (did not raise). -/
def isOkB {ε α : Type} : Except ε α → Bool
  | .ok _ => true
  | .error _ => false

/-! ## Lemmas about the substring search -/

theorem mem_of_mem_dropWhile {p : Char → Bool} {l : Str} {a : Char}
    (h : a ∈ l.dropWhile p) : a ∈ l :=
  (List.dropWhile_sublist p).mem h

/-- If `tag` occurs nowhere in `s` (at no starting index), the search
fails. -/
theorem splitFirst_eq_none (tag : Str) (hne : tag ≠ []) :
    ∀ s : Str, (∀ i, i < s.length → occursAt tag s i = false) →
      splitFirst tag s = none := by
  intro s
  induction s with
  | nil => intro _; simp [splitFirst, hne]
  | cons c rest ih =>
    intro h
    have h0 : tag.isPrefixOf (c :: rest) = false := by
      simpa [occursAt] using h 0 (by simp)
    have hrec : splitFirst tag rest = none := by
      refine ih (fun i hi => ?_)
      simpa [occursAt, List.drop_succ_cons] using h (i + 1) (by simpa using Nat.succ_lt_succ hi)
    simp [splitFirst, h0, hrec]

/-- The search finds the shown occurrence when no occurrence of `tag`
starts earlier. -/
theorem splitFirst_complete (tag : Str) (hne : tag ≠ []) :
    ∀ pre post : Str,
      (∀ i, i < pre.length → occursAt tag (pre ++ (tag ++ post)) i = false) →
      splitFirst tag (pre ++ (tag ++ post)) = some (pre, post) := by
  intro pre
  induction pre with
  | nil =>
    intro post _
    cases htag : tag with
    | nil => exact absurd htag hne
    | cons c t =>
      show splitFirst (c :: t) ((c :: t) ++ post) = some ([], post)
      have hpre : (c :: t).isPrefixOf ((c :: t) ++ post) = true :=
        List.isPrefixOf_iff_prefix.mpr (List.prefix_append _ _)
      simp [splitFirst, hpre, List.drop_left]
  | cons c pre ih =>
    intro post h
    have h0 : tag.isPrefixOf (c :: (pre ++ (tag ++ post))) = false := by
      simpa [occursAt] using h 0 (by simp)
    have hrec := ih post (fun i hi => by
      simpa [occursAt, List.drop_succ_cons] using h (i + 1) (by simpa using Nat.succ_lt_succ hi))
    have h0' : ¬ tag <+: (c :: (pre ++ (tag ++ post))) := by
      rw [← List.isPrefixOf_iff_prefix]
      simp [h0]
    show splitFirst tag (c :: (pre ++ (tag ++ post))) = some (c :: pre, post)
    simp only [splitFirst]
    simp [h0, hrec]

/-- The non-greedy leftmost search finds the shown span when the
opening tag has no earlier occurrence and the closing tag has no
earlier occurrence after the opening tag. -/
theorem searchBetween_complete (openT closeT : Str)
    (hno : openT ≠ []) (hnc : closeT ≠ []) (pre x post : Str)
    (hopen : ∀ i, i < pre.length →
      occursAt openT (pre ++ (openT ++ (x ++ (closeT ++ post)))) i = false)
    (hclose : ∀ j, j < x.length → occursAt closeT (x ++ (closeT ++ post)) j = false) :
    searchBetween openT closeT (pre ++ (openT ++ (x ++ (closeT ++ post)))) = some x := by
  have h1 := splitFirst_complete openT hno pre (x ++ (closeT ++ post)) hopen
  have h2 := splitFirst_complete closeT hnc x post hclose
  simp [searchBetween, h1, h2]

/-! ## Lemmas about the deal scan -/

theorem dealScanAux_nil (fuel : Nat) : dealScanAux fuel [] = [] := by
  cases fuel <;> rfl

/-- When the opening tag occurs nowhere in `s`, the scan finds
nothing. -/
theorem dealScanAux_of_no_open (fuel : Nat) :
    ∀ s : Str, splitFirst dealOpenTag s = none → dealScanAux fuel s = [] := by
  induction fuel with
  | zero => intro s _; rfl
  | succ fuel ih =>
    intro s h
    cases s with
    | nil => rfl
    | cons c rest =>
      have hsplit : dealOpenTag.isPrefixOf (c :: rest) = false ∧
          splitFirst dealOpenTag rest = none := by
        by_cases hp : dealOpenTag.isPrefixOf (c :: rest)
        · simp [splitFirst, hp] at h
        · refine ⟨by rw [← Bool.not_eq_true]; exact hp, ?_⟩
          cases hq : splitFirst dealOpenTag rest with
          | none => rfl
          | some pr => cases pr with
            | mk pre post => simp [splitFirst, hp, hq] at h
      simp [dealScanAux, hsplit.1, ih rest hsplit.2]

/-- Every capture of the scan is non-empty and free of the character
`<` (it is carved out of a maximal run of non-`<` characters). -/
theorem mem_dealScanAux (fuel : Nat) :
    ∀ s d : Str, d ∈ dealScanAux fuel s → d ≠ [] ∧ '<' ∉ d := by
  induction fuel with
  | zero => intro s d h; simp [dealScanAux] at h
  | succ fuel ih =>
    intro s d h
    cases s with
    | nil => simp [dealScanAux] at h
    | cons c rest =>
      simp only [dealScanAux] at h
      split at h
      · split at h
        · rename_i hcond
          rcases List.mem_cons.mp h with rfl | hmem
          · set run := ((c :: rest).drop dealOpenTag.length).takeWhile
                (fun ch => decide (ch ≠ '<')) with hrun
            have hrun_ne : run ≠ [] := hcond.1
            have hrun_no_lt : ∀ x ∈ run, x ≠ '<' := by
              intro x hx
              have := List.mem_takeWhile_imp (hrun ▸ hx)
              simpa using this
            constructor
            · unfold dealCapture
              split
              · have hpos : 0 < run.length := List.length_pos.mpr hrun_ne
                have hlen : 0 < (run.drop (run.length - 1)).length := by
                  rw [List.length_drop]; omega
                exact List.length_pos.mp hlen
              · rename_i hws; exact hws
            · intro hin
              have hmemrun : '<' ∈ run := by
                unfold dealCapture at hin
                split at hin
                · exact List.drop_subset _ _ hin
                · exact mem_of_mem_dropWhile hin
              exact hrun_no_lt '<' hmemrun rfl
          · exact ih _ d hmem
        · exact ih rest d h
      · exact ih rest d h

/-- The scan result does not depend on the fuel once the fuel covers
the length of the string. -/
theorem dealScanAux_congr : ∀ fuel₁ fuel₂ s,
    s.length ≤ fuel₁ → s.length ≤ fuel₂ →
    dealScanAux fuel₁ s = dealScanAux fuel₂ s := by
  intro fuel₁
  induction fuel₁ with
  | zero =>
    intro fuel₂ s h₁ _
    rw [List.eq_nil_of_length_eq_zero (Nat.le_zero.mp h₁), dealScanAux_nil, dealScanAux_nil]
  | succ f₁ ih =>
    intro fuel₂ s h₁ h₂
    cases s with
    | nil => rw [dealScanAux_nil, dealScanAux_nil]
    | cons c rest =>
      cases fuel₂ with
      | zero => simp at h₂
      | succ f₂ =>
        have hrest₁ : rest.length ≤ f₁ := by simpa using h₁
        have hrest₂ : rest.length ≤ f₂ := by simpa using h₂
        simp only [dealScanAux]
        split
        · split
          · refine congrArg _ (ih f₂ _ ?_ ?_)
            · calc ((((c :: rest).drop dealOpenTag.length).dropWhile
                    (fun ch => decide (ch ≠ '<'))).drop dealCloseTag.length).length
                  ≤ (((c :: rest).drop dealOpenTag.length).dropWhile
                    (fun ch => decide (ch ≠ '<'))).length := by
                    rw [List.length_drop]; omega
                _ ≤ ((c :: rest).drop dealOpenTag.length).length :=
                    (List.dropWhile_sublist _).length_le
                _ ≤ f₁ := by rw [List.length_drop]; simp [dealOpenTag]; omega
            · calc ((((c :: rest).drop dealOpenTag.length).dropWhile
                    (fun ch => decide (ch ≠ '<'))).drop dealCloseTag.length).length
                  ≤ (((c :: rest).drop dealOpenTag.length).dropWhile
                    (fun ch => decide (ch ≠ '<'))).length := by
                    rw [List.length_drop]; omega
                _ ≤ ((c :: rest).drop dealOpenTag.length).length :=
                    (List.dropWhile_sublist _).length_le
                _ ≤ f₂ := by rw [List.length_drop]; simp [dealOpenTag]; omega
          · exact ih f₂ rest hrest₁ hrest₂
        · exact ih f₂ rest hrest₁ hrest₂

/-- `takeWhile`/`dropWhile` split an append at the first failing
character. -/
theorem takeWhile_append_eq (p : Char → Bool) :
    ∀ (a : Str) (c0 : Char) (l : Str), (∀ c ∈ a, p c = true) → p c0 = false →
      ((a ++ c0 :: l).takeWhile p = a ∧ (a ++ c0 :: l).dropWhile p = c0 :: l) := by
  intro a
  induction a with
  | nil =>
    intro c0 l _ hc
    simp [List.takeWhile_cons, List.dropWhile_cons, hc]
  | cons x a ih =>
    intro c0 l h hc
    have hx : p x = true := h x (by simp)
    have hrec := ih c0 l (fun c hcmem => h c (by simp [hcmem])) hc
    simp [List.takeWhile_cons, List.dropWhile_cons, hx, hrec.1, hrec.2]

/-- A capture whose run starts with a non-whitespace character is the
run itself. -/
theorem dealCapture_eq_self (a : Str) (ha : a ≠ []) (hhead : isPySpace a.headI = false) :
    dealCapture a = a := by
  cases a with
  | nil => exact absurd rfl ha
  | cons c t =>
    have hc : isPySpace c = false := hhead
    unfold dealCapture
    simp [List.dropWhile_cons, hc]

/-- One successful match step of the scan: an opening tag followed by
a non-empty `<`-free run and the closing tag captures the run and
resumes after the closing tag. -/
theorem dealScanAux_step (a r : Str) (fuel : Nat)
    (ha : a ≠ []) (hlt : ∀ c ∈ a, c ≠ '<') :
    dealScanAux (fuel + 1) (dealOpenTag ++ (a ++ (dealCloseTag ++ r))) =
      dealCapture a :: dealScanAux fuel r := by
  have hrun := takeWhile_append_eq (fun ch => decide (ch ≠ '<')) a '<'
      ('/' :: 'D' :: 'E' :: 'A' :: 'L' :: '>' :: r)
      (fun c hc => decide_eq_true (hlt c hc)) (by decide)
  have hopen : dealOpenTag.isPrefixOf
      ('<' :: 'D' :: 'E' :: 'A' :: 'L' :: '>' :: (a ++ ('<' :: '/' :: 'D' :: 'E' :: 'A' :: 'L' :: '>' :: r))) = true := by
    simp [dealOpenTag, List.isPrefixOf]
  have hclose : dealCloseTag.isPrefixOf ('<' :: '/' :: 'D' :: 'E' :: 'A' :: 'L' :: '>' :: r) = true := by
    simp [dealCloseTag, List.isPrefixOf]
  show dealScanAux (fuel + 1)
      ('<' :: 'D' :: 'E' :: 'A' :: 'L' :: '>' :: (a ++ ('<' :: '/' :: 'D' :: 'E' :: 'A' :: 'L' :: '>' :: r))) =
    dealCapture a :: dealScanAux fuel r
  simp only [dealScanAux, hopen, if_true]
  rw [show ('<' :: 'D' :: 'E' :: 'A' :: 'L' :: '>' :: (a ++ ('<' :: '/' :: 'D' :: 'E' :: 'A' :: 'L' :: '>' :: r))).drop dealOpenTag.length
      = a ++ ('<' :: '/' :: 'D' :: 'E' :: 'A' :: 'L' :: '>' :: r) from rfl]
  rw [hrun.1, hrun.2]
  rw [if_pos ⟨ha, hclose⟩]
  rw [show ('<' :: '/' :: 'D' :: 'E' :: 'A' :: 'L' :: '>' :: r).drop dealCloseTag.length = r from rfl]

/-! ## Message-sequence shape of `convert_to_docent_format` -/

/-- When every round has a non-empty prompt, the flattened message
list has two messages per round, the user message at even positions
and the assistant message at odd positions. -/
theorem flatMap_roundMessages_spec :
    ∀ rs : List ParsedRound, (∀ r ∈ rs, r.prompt ≠ []) →
      (rs.flatMap roundMessages).length = 2 * rs.length ∧
      ∀ i, i < rs.length →
        (rs.flatMap roundMessages).getD (2 * i) defaultMessage =
          { role := "user".toList, content := (rs.getD i defaultParsedRound).prompt } ∧
        (rs.flatMap roundMessages).getD (2 * i + 1) defaultMessage =
          { role := "assistant".toList,
            content :=
              if (rs.getD i defaultParsedRound).public_answer = []
              then (rs.getD i defaultParsedRound).full_answer
              else (rs.getD i defaultParsedRound).public_answer } := by
  intro rs
  induction rs with
  | nil => intro _; exact ⟨rfl, fun i hi => absurd hi (by simp)⟩
  | cons r rs ih =>
    intro h
    have hr : r.prompt ≠ [] := h r (by simp)
    have hrec := ih (fun r' hr' => h r' (by simp [hr']))
    have hcons : (r :: rs).flatMap roundMessages =
        { role := "user".toList, content := r.prompt } ::
        { role := "assistant".toList,
          content := if r.public_answer = [] then r.full_answer else r.public_answer } ::
        rs.flatMap roundMessages := by
      simp [roundMessages, hr]
    constructor
    · rw [hcons]
      simp only [List.length_cons, hrec.1]
      omega
    · intro i hi
      cases i with
      | zero => rw [hcons]; exact ⟨rfl, rfl⟩
      | succ j =>
        rw [hcons]
        have e1 : 2 * (j + 1) = 2 * j + 1 + 1 := by ring
        rw [e1]
        simp only [List.getD_cons_succ]
        exact hrec.2 j (by simpa using hi)

/-- C1: for every trajectory with `N` rounds in which every round has
a non-empty prompt, `convert_to_docent_format` produces one run whose
message sequence has exactly `2 N` messages alternating user,
assistant, …; the user message of round `i` carries its prompt, and
the assistant message's content is the round's public answer when
that is non-empty, else the round's raw full answer. -/
theorem C1_convert_alternating_messages (p : ParsedData)
    (h : ∀ r ∈ p.rounds, r.prompt ≠ []) :
    ∃ run, convert_to_docent_format p = [run] ∧
      run.messages.length = 2 * p.rounds.length ∧
      ∀ i, i < p.rounds.length →
        run.messages.getD (2 * i) defaultMessage =
          { role := "user".toList, content := (p.rounds.getD i defaultParsedRound).prompt } ∧
        run.messages.getD (2 * i + 1) defaultMessage =
          { role := "assistant".toList,
            content :=
              if (p.rounds.getD i defaultParsedRound).public_answer = []
              then (p.rounds.getD i defaultParsedRound).full_answer
              else (p.rounds.getD i defaultParsedRound).public_answer } := by
  refine ⟨_, rfl, ?_, ?_⟩
  · exact (flatMap_roundMessages_spec p.rounds h).1
  · exact (flatMap_roundMessages_spec p.rounds h).2

def sampleRound1 : ParsedRound :=
  { round_index := 0, agent := [], agent_config := none, prompt := ['p'],
    full_answer := ['f'], public_answer := ['q'], deals_proposed := [],
    scratchpad_reasoning := none, message_length := 1,
    has_scratchpad := false, has_deal := false }

def sampleRound2 : ParsedRound :=
  { round_index := 1, agent := [], agent_config := none, prompt := ['r'],
    full_answer := ['g'], public_answer := [], deals_proposed := [],
    scratchpad_reasoning := none, message_length := 1,
    has_scratchpad := false, has_deal := false }

def sampleParsedData : ParsedData :=
  { filename := [], slot_assignment := [], rounds := [sampleRound1, sampleRound2],
    metadata := { config := [], total_rounds := 2, finished_rounds := 0 } }

/-- Witness for C1 at a concrete two-round trajectory. -/
theorem C1_witness :
    (∀ r ∈ sampleParsedData.rounds, r.prompt ≠ []) ∧
    ∃ run, convert_to_docent_format sampleParsedData = [run] ∧
      run.messages.length = 2 * sampleParsedData.rounds.length ∧
      ∀ i, i < sampleParsedData.rounds.length →
        run.messages.getD (2 * i) defaultMessage =
          { role := "user".toList,
            content := (sampleParsedData.rounds.getD i defaultParsedRound).prompt } ∧
        run.messages.getD (2 * i + 1) defaultMessage =
          { role := "assistant".toList,
            content :=
              if (sampleParsedData.rounds.getD i defaultParsedRound).public_answer = []
              then (sampleParsedData.rounds.getD i defaultParsedRound).full_answer
              else (sampleParsedData.rounds.getD i defaultParsedRound).public_answer } :=
  ⟨by decide, C1_convert_alternating_messages sampleParsedData (by decide)⟩

/-! ## Public answer and scratchpad extraction -/

/-- C3: when `full_answer` contains an ANSWER span (shown here as the
first opening tag followed by the first closing tag after it), the
parsed `public_answer` is that span's content trimmed — even when the
round carries an explicit `public_answer` field; with no span the
explicit field is used, and with neither the result is empty. -/
theorem C3_public_answer_precedence (config : CfgMap) (rd : RawRound) (idx : Nat) :
    (∀ pre x post : Str,
      rd.full_answer.getD [] = pre ++ (answerOpenTag ++ (x ++ (answerCloseTag ++ post))) →
      (∀ i, i < pre.length → occursAt answerOpenTag (rd.full_answer.getD []) i = false) →
      (∀ j, j < x.length → occursAt answerCloseTag (x ++ (answerCloseTag ++ post)) j = false) →
      (parse_round config rd idx).public_answer = pyStrip x) ∧
    (searchBetween answerOpenTag answerCloseTag (rd.full_answer.getD []) = none →
      (parse_round config rd idx).public_answer = rd.public_answer.getD []) ∧
    (searchBetween answerOpenTag answerCloseTag (rd.full_answer.getD []) = none →
      rd.public_answer = none →
      (parse_round config rd idx).public_answer = []) := by
  refine ⟨?_, ?_, ?_⟩
  · intro pre x post hfa hopen hclose
    have hopen' : ∀ i, i < pre.length →
        occursAt answerOpenTag (pre ++ (answerOpenTag ++ (x ++ (answerCloseTag ++ post)))) i = false := by
      rw [← hfa]; exact hopen
    have hs : searchBetween answerOpenTag answerCloseTag (rd.full_answer.getD []) = some x := by
      rw [hfa]
      exact searchBetween_complete _ _ (by decide) (by decide) pre x post hopen' hclose
    simp [parse_round, hs]
  · intro hs
    simp [parse_round, hs]
  · intro hs hpa
    simp [parse_round, hs, hpa]

def sampleAnswerRound : RawRound :=
  { agent := none, prompt := none,
    full_answer := some "<ANSWER> yes </ANSWER>".toList,
    public_answer := some "no".toList }

/-- Witness for C3: the ANSWER tag wins over the explicit field. -/
theorem C3_witness :
    sampleAnswerRound.public_answer = some "no".toList ∧
    (parse_round [] sampleAnswerRound 0).public_answer = "yes".toList := by
  refine ⟨rfl, ?_⟩
  have h := (C3_public_answer_precedence [] sampleAnswerRound 0).1 []
      (' ' :: 'y' :: 'e' :: 's' :: ' ' :: []) [] (by decide) (by decide) (by decide)
  exact h.trans (by decide)

/-- C5: when `full_answer` contains a SCRATCHPAD span (the first
opening tag followed by the first closing tag after it; the content
may span newlines), the parsed `scratchpad_reasoning` is the trimmed
content and `has_scratchpad` is true; with no span it is `none` and
`has_scratchpad` is false. -/
theorem C5_scratchpad_extraction (config : CfgMap) (rd : RawRound) (idx : Nat) :
    (∀ pre x post : Str,
      rd.full_answer.getD [] = pre ++ (scratchOpenTag ++ (x ++ (scratchCloseTag ++ post))) →
      (∀ i, i < pre.length → occursAt scratchOpenTag (rd.full_answer.getD []) i = false) →
      (∀ j, j < x.length → occursAt scratchCloseTag (x ++ (scratchCloseTag ++ post)) j = false) →
      (parse_round config rd idx).scratchpad_reasoning = some (pyStrip x) ∧
      (parse_round config rd idx).has_scratchpad = true) ∧
    (searchBetween scratchOpenTag scratchCloseTag (rd.full_answer.getD []) = none →
      (parse_round config rd idx).scratchpad_reasoning = none ∧
      (parse_round config rd idx).has_scratchpad = false) := by
  refine ⟨?_, ?_⟩
  · intro pre x post hfa hopen hclose
    have hopen' : ∀ i, i < pre.length →
        occursAt scratchOpenTag (pre ++ (scratchOpenTag ++ (x ++ (scratchCloseTag ++ post)))) i = false := by
      rw [← hfa]; exact hopen
    have hs : searchBetween scratchOpenTag scratchCloseTag (rd.full_answer.getD []) = some x := by
      rw [hfa]
      exact searchBetween_complete _ _ (by decide) (by decide) pre x post hopen' hclose
    constructor
    · simp [parse_round, hs]
    · simp [parse_round, hs]
  · intro hs
    constructor
    · simp [parse_round, hs]
    · simp [parse_round, hs]

def sampleScratchRound : RawRound :=
  { agent := none, prompt := none,
    full_answer := some "pre<SCRATCHPAD> x\ny </SCRATCHPAD>post".toList,
    public_answer := none }

def sampleNoScratchRound : RawRound :=
  { agent := none, prompt := none,
    full_answer := some "nothing tagged here".toList,
    public_answer := none }

/-- Witness for C5: a multi-line span is extracted and trimmed; an
untagged answer yields no scratchpad. -/
theorem C5_witness :
    ((parse_round [] sampleScratchRound 0).scratchpad_reasoning = some "x\ny".toList ∧
      (parse_round [] sampleScratchRound 0).has_scratchpad = true) ∧
    ((parse_round [] sampleNoScratchRound 0).scratchpad_reasoning = none ∧
      (parse_round [] sampleNoScratchRound 0).has_scratchpad = false) := by
  constructor
  · have h := (C5_scratchpad_extraction [] sampleScratchRound 0).1
        ('p' :: 'r' :: 'e' :: [])
        (' ' :: 'x' :: '\n' :: 'y' :: ' ' :: [])
        ('p' :: 'o' :: 's' :: 't' :: [])
        (by decide) (by decide) (by decide)
    exact ⟨h.1.trans (by decide), h.2⟩
  · exact (C5_scratchpad_extraction [] sampleNoScratchRound 0).2 (by decide)

/-! ## Deal extraction -/

/-- A string that is exactly one deal span with a well-formed content
scans to that single content, for any sufficient fuel. -/
theorem dealScanAux_single (b : Str) (fuel : Nat)
    (hb : b ≠ []) (hltb : ∀ c ∈ b, c ≠ '<') (hhb : isPySpace b.headI = false)
    (hfuel : (dealOpenTag ++ (b ++ dealCloseTag)).length ≤ fuel) :
    dealScanAux fuel (dealOpenTag ++ (b ++ dealCloseTag)) = [b] := by
  rw [dealScanAux_congr fuel ((dealOpenTag ++ (b ++ dealCloseTag)).length) _ hfuel (le_refl _)]
  have hr : dealOpenTag ++ (b ++ dealCloseTag) =
      dealOpenTag ++ (b ++ (dealCloseTag ++ ([] : Str))) := by simp
  rw [hr]
  have hpos : 0 < (dealOpenTag ++ (b ++ (dealCloseTag ++ ([] : Str)))).length := by
    simp [dealOpenTag]
  rw [show (dealOpenTag ++ (b ++ (dealCloseTag ++ ([] : Str)))).length =
      ((dealOpenTag ++ (b ++ (dealCloseTag ++ ([] : Str)))).length - 1) + 1 from by omega]
  rw [dealScanAux_step b ([] : Str) _ hb hltb]
  rw [dealCapture_eq_self b hb hhb, dealScanAux_nil]

/-- C4: a round whose `full_answer` contains no `<DEAL>` opening tag
yields an empty `deals_proposed` and `has_deal = false`; a round
whose `full_answer` is exactly two deal spans with well-formed
contents yields both contents in source order. -/
theorem C4_deal_extraction (config : CfgMap) (rd : RawRound) (idx : Nat) :
    ((∀ i, i < (rd.full_answer.getD []).length →
        occursAt dealOpenTag (rd.full_answer.getD []) i = false) →
      (parse_round config rd idx).deals_proposed = [] ∧
      (parse_round config rd idx).has_deal = false) ∧
    (∀ a b : Str, a ≠ [] → b ≠ [] →
      (∀ c ∈ a, c ≠ '<') → (∀ c ∈ b, c ≠ '<') →
      isPySpace a.headI = false → isPySpace b.headI = false →
      rd.full_answer.getD [] =
        dealOpenTag ++ (a ++ (dealCloseTag ++ (dealOpenTag ++ (b ++ dealCloseTag)))) →
      (parse_round config rd idx).deals_proposed = [a, b]) := by
  constructor
  · intro h
    have hnone := splitFirst_eq_none dealOpenTag (by decide) _ h
    have hscan : findallDeals (rd.full_answer.getD []) = [] :=
      dealScanAux_of_no_open _ _ hnone
    constructor
    · rw [show (parse_round config rd idx).deals_proposed =
          findallDeals (rd.full_answer.getD []) from rfl, hscan]
    · rw [show (parse_round config rd idx).has_deal =
          decide (0 < (findallDeals (rd.full_answer.getD [])).length) from rfl, hscan]
      decide
  · intro a b ha hb hlta hltb hha hhb hfa
    have key : findallDeals
        (dealOpenTag ++ (a ++ (dealCloseTag ++ (dealOpenTag ++ (b ++ dealCloseTag))))) = [a, b] := by
      unfold findallDeals
      have hpos : 0 < (dealOpenTag ++ (a ++ (dealCloseTag ++ (dealOpenTag ++ (b ++ dealCloseTag))))).length := by
        simp [dealOpenTag]
      rw [show (dealOpenTag ++ (a ++ (dealCloseTag ++ (dealOpenTag ++ (b ++ dealCloseTag))))).length =
          ((dealOpenTag ++ (a ++ (dealCloseTag ++ (dealOpenTag ++ (b ++ dealCloseTag))))).length - 1) + 1
          from by omega]
      rw [dealScanAux_step a _ _ ha hlta]
      rw [dealCapture_eq_self a ha hha]
      congr 1
      refine dealScanAux_single b _ hb hltb hhb ?_
      simp only [dealOpenTag, dealCloseTag, List.length_append, List.length_cons,
        List.length_nil]
      have hal : 0 < a.length := List.length_pos.mpr ha
      omega
    rw [show (parse_round config rd idx).deals_proposed =
        findallDeals (rd.full_answer.getD []) from rfl, hfa]
    exact key

def sampleDealRound : RawRound :=
  { agent := none, prompt := none,
    full_answer := some "<DEAL>A</DEAL><DEAL>B</DEAL>".toList,
    public_answer := none }

def sampleNoDealRound : RawRound :=
  { agent := none, prompt := none,
    full_answer := some "hello there".toList,
    public_answer := none }

/-- Witness for C4: no tags gives no deals; two spans give both
contents in order. -/
theorem C4_witness :
    ((parse_round [] sampleNoDealRound 0).deals_proposed = [] ∧
      (parse_round [] sampleNoDealRound 0).has_deal = false) ∧
    (parse_round [] sampleDealRound 0).deals_proposed = [['A'], ['B']] := by
  refine ⟨(C4_deal_extraction [] sampleNoDealRound 0).1 (by decide), ?_⟩
  exact (C4_deal_extraction [] sampleDealRound 0).2 ['A'] ['B']
    (by decide) (by decide) (by decide) (by decide) (by decide) (by decide) (by decide)

/-- C9: every extracted deal string is non-empty and contains no
`<`; `has_deal` holds exactly when `deals_proposed` is non-empty; a
pair with empty content, or one whose content contains `<`,
contributes nothing. -/
theorem C9_deals_invariant (config : CfgMap) (rd : RawRound) (idx : Nat) :
    (∀ d ∈ (parse_round config rd idx).deals_proposed, d ≠ [] ∧ '<' ∉ d) ∧
    ((parse_round config rd idx).has_deal = true ↔
      (parse_round config rd idx).deals_proposed ≠ []) ∧
    (rd.full_answer = some "<DEAL></DEAL>".toList →
      (parse_round config rd idx).deals_proposed = [] ∧
      (parse_round config rd idx).has_deal = false) ∧
    (rd.full_answer = some "<DEAL>a<b</DEAL>".toList →
      (parse_round config rd idx).deals_proposed = [] ∧
      (parse_round config rd idx).has_deal = false) := by
  refine ⟨?_, ?_, ?_, ?_⟩
  · intro d hd
    exact mem_dealScanAux _ _ d hd
  · rw [show (parse_round config rd idx).has_deal =
        decide (0 < (parse_round config rd idx).deals_proposed.length) from rfl]
    simp [List.length_pos]
  · intro h
    constructor
    · rw [show (parse_round config rd idx).deals_proposed =
          findallDeals (rd.full_answer.getD []) from rfl, h]
      decide
    · rw [show (parse_round config rd idx).has_deal =
          decide (0 < (findallDeals (rd.full_answer.getD [])).length) from rfl, h]
      decide
  · intro h
    constructor
    · rw [show (parse_round config rd idx).deals_proposed =
          findallDeals (rd.full_answer.getD []) from rfl, h]
      decide
    · rw [show (parse_round config rd idx).has_deal =
          decide (0 < (findallDeals (rd.full_answer.getD [])).length) from rfl, h]
      decide

def sampleEmptyDealRound : RawRound :=
  { agent := none, prompt := none,
    full_answer := some "<DEAL></DEAL>".toList, public_answer := none }

def sampleLtDealRound : RawRound :=
  { agent := none, prompt := none,
    full_answer := some "<DEAL>a<b</DEAL>".toList, public_answer := none }

def sampleOneDealRound : RawRound :=
  { agent := none, prompt := none,
    full_answer := some "<DEAL>x</DEAL>".toList, public_answer := none }

/-- Witness for C9 at concrete rounds. -/
theorem C9_witness :
    (['x'] ≠ [] ∧ '<' ∉ ['x']) ∧
    ((parse_round [] sampleEmptyDealRound 0).deals_proposed = [] ∧
      (parse_round [] sampleEmptyDealRound 0).has_deal = false) ∧
    ((parse_round [] sampleLtDealRound 0).deals_proposed = [] ∧
      (parse_round [] sampleLtDealRound 0).has_deal = false) := by
  refine ⟨?_, ?_, ?_⟩
  · exact (C9_deals_invariant [] sampleOneDealRound 0).1 ['x'] (by decide)
  · exact (C9_deals_invariant [] sampleEmptyDealRound 0).2.2.1 rfl
  · exact (C9_deals_invariant [] sampleLtDealRound 0).2.2.2 rfl

/-! ## Per-file failure isolation -/

/-- Runs contributed by one file: one converted run on success,
nothing when reading raised. -/
def fileRuns {α ε : Type} (readF : α → Except ε RawTrajectory)
    (nameOf : α → Str) (config : CfgMap) (f : α) : List Run :=
  match readF f with
  | .ok data => convert_to_docent_format (parse_trajectory_file config (nameOf f) data)
  | .error _ => []

/-- The processing fold accumulates exactly the per-file runs and the
non-raising files, in order, whatever the starting accumulator. -/
theorem process_foldl_spec {α ε : Type} (readF : α → Except ε RawTrajectory)
    (nameOf : α → Str) (config : CfgMap) :
    ∀ (files : List α) (acc : List Run × List α),
      files.foldl (processStep readF nameOf config) acc =
        (acc.1 ++ files.flatMap (fileRuns readF nameOf config),
         acc.2 ++ files.filter (fun f => isOkB (readF f))) := by
  intro files
  induction files with
  | nil => intro acc; simp
  | cons f files ih =>
    intro acc
    rw [List.foldl_cons, ih]
    cases hre : readF f with
    | ok data =>
      simp [processStep, hre, fileRuns, isOkB, List.filter_cons]
    | error e =>
      simp [processStep, hre, fileRuns, isOkB, List.filter_cons]

/-- `convert_to_docent_format` always emits exactly one run per
trajectory. -/
theorem convert_to_docent_format_length (p : ParsedData) :
    (convert_to_docent_format p).length = 1 := rfl

/-- Each successfully read file contributes exactly one run. -/
theorem flatMap_fileRuns_length {α ε : Type} (readF : α → Except ε RawTrajectory)
    (nameOf : α → Str) (config : CfgMap) :
    ∀ files : List α,
      (files.flatMap (fileRuns readF nameOf config)).length =
        (files.filter (fun f => isOkB (readF f))).length := by
  intro files
  induction files with
  | nil => rfl
  | cons f files ih =>
    cases hre : readF f with
    | ok data =>
      simp [fileRuns, hre, isOkB, List.filter_cons, ih, convert_to_docent_format_length]
      omega
    | error e => simp [fileRuns, hre, isOkB, List.filter_cons, ih]

/-- C2: a per-file parse failure is isolated — the processed-file
list is exactly the non-raising files, the number of accumulated runs
equals the number of non-raising files (only those are then moved to
`processed/` by `main`), and for three files of which the second
raises, the result holds the runs of files 1 and 3 and lists exactly
files 1 and 3 as processed. -/
theorem C2_per_file_isolation {α ε : Type} (readF : α → Except ε RawTrajectory)
    (nameOf : α → Str) (config : CfgMap) (files : List α) :
    ((process_all_trajectories readF nameOf config files).2 =
      files.filter (fun f => isOkB (readF f))) ∧
    ((process_all_trajectories readF nameOf config files).1.length =
      (process_all_trajectories readF nameOf config files).2.length) ∧
    (∀ (f1 f2 f3 : α) (d1 d3 : RawTrajectory) (e : ε),
      readF f1 = .ok d1 → readF f2 = .error e → readF f3 = .ok d3 →
      process_all_trajectories readF nameOf config [f1, f2, f3] =
        (convert_to_docent_format (parse_trajectory_file config (nameOf f1) d1) ++
          convert_to_docent_format (parse_trajectory_file config (nameOf f3) d3),
         [f1, f3])) := by
  have hspec := process_foldl_spec readF nameOf config files ([], [])
  refine ⟨?_, ?_, ?_⟩
  · rw [show (process_all_trajectories readF nameOf config files) =
        files.foldl (processStep readF nameOf config) ([], []) from rfl, hspec]
    simp
  · rw [show (process_all_trajectories readF nameOf config files) =
        files.foldl (processStep readF nameOf config) ([], []) from rfl, hspec]
    simpa using flatMap_fileRuns_length readF nameOf config files
  · intro f1 f2 f3 d1 d3 e h1 h2 h3
    show [f1, f2, f3].foldl (processStep readF nameOf config) ([], []) = _
    simp [List.foldl_cons, List.foldl_nil, processStep, h1, h2, h3]

def sampleTrajectory : RawTrajectory :=
  { slot_assignment := none, rounds := none, finished_rounds := none }

/-- Witness for C2: three numbered files, the second of which raises. -/
theorem C2_witness :
    process_all_trajectories
        (fun n : Nat => if n = 2 then Except.error () else Except.ok sampleTrajectory)
        (fun _ => []) [] [1, 2, 3] =
      (convert_to_docent_format (parse_trajectory_file [] [] sampleTrajectory) ++
        convert_to_docent_format (parse_trajectory_file [] [] sampleTrajectory),
       [1, 3]) :=
  (C2_per_file_isolation
      (fun n : Nat => if n = 2 then Except.error () else Except.ok sampleTrajectory)
      (fun _ => []) [] [1, 2, 3]).2.2 1 2 3 sampleTrajectory sampleTrajectory ()
    rfl rfl rfl

/-! ## Agent configuration loading -/

/-- A dict write makes the key map to the written value. -/
theorem cfgGet_insertCfg_self :
    ∀ (cfg : CfgMap) (k : Str) (v : AgentConfig),
      cfgGet (insertCfg cfg k v) k = some v := by
  intro cfg k v
  induction cfg with
  | nil => simp [insertCfg, cfgGet]
  | cons kv rest ih =>
    cases kv with
    | mk k' v' =>
      by_cases hk : k' = k
      · simp [insertCfg, hk, cfgGet]
      · simp [insertCfg, hk, cfgGet, ih]

/-- C6: a config line with at least five comma-separated fields binds
its first field to the remaining four (looking up the name of the
last line finds exactly its four fields); a line with fewer than five
fields is skipped without effect; and a missing config file yields an
empty mapping. -/
theorem C6_load_config (lines : List Str) (line : Str)
    (h5 : 5 ≤ (splitComma (pyStrip line)).length) :
    (cfgGet (load_config (some (lines ++ [line]))) ((splitComma (pyStrip line)).getD 0 []) =
      some { short_name := (splitComma (pyStrip line)).getD 1 [],
             player_type := (splitComma (pyStrip line)).getD 2 [],
             strategy := (splitComma (pyStrip line)).getD 3 [],
             model := (splitComma (pyStrip line)).getD 4 [] }) ∧
    (∀ bad : Str, (splitComma (pyStrip bad)).length < 5 →
      load_config (some (lines ++ [bad])) = load_config (some lines)) ∧
    load_config none = [] := by
  refine ⟨?_, ?_, rfl⟩
  · show cfgGet (loadConfigLines (lines ++ [line])) _ = _
    unfold loadConfigLines
    rw [List.foldl_append, List.foldl_cons, List.foldl_nil]
    rw [if_pos h5]
    exact cfgGet_insertCfg_self _ _ _
  · intro bad hbad
    show loadConfigLines (lines ++ [bad]) = loadConfigLines lines
    unfold loadConfigLines
    rw [List.foldl_append, List.foldl_cons, List.foldl_nil]
    rw [if_neg (by omega)]

/-- Witness for C6 at the config line of the specification. -/
theorem C6_witness :
    cfgGet (load_config (some ["Alice,A1,buyer,aggressive,gpt-4".toList])) "Alice".toList =
      some { short_name := "A1".toList, player_type := "buyer".toList,
             strategy := "aggressive".toList, model := "gpt-4".toList } ∧
    load_config (some ["Alice,A1,buyer,aggressive,gpt-4".toList, "a,b,c".toList]) =
      load_config (some ["Alice,A1,buyer,aggressive,gpt-4".toList]) := by
  constructor
  · have h := (C6_load_config [] "Alice,A1,buyer,aggressive,gpt-4".toList (by decide)).1
    exact h.trans (by decide)
  · exact (C6_load_config ["Alice,A1,buyer,aggressive,gpt-4".toList]
      "Alice,A1,buyer,aggressive,gpt-4".toList (by decide)).2.1 "a,b,c".toList (by decide)

/-! ## Uploader scores and error handling -/

/-- C7: the agent run built for the run at 0-based position `i` has
exactly the three numeric scores: `total_rounds` from the run's
metadata (0 when absent), `message_count` as the realized number of
constructed messages, and `session_id` as the 1-based position
`i + 1`; the batch has one agent run per input run. -/
theorem C7_agent_run_scores (runs_data : List UpRun) (i : Nat)
    (hi : i < runs_data.length) :
    ((create_agent_runs_from_data runs_data).getD i defaultAgentRun).score_total_rounds =
      ((runs_data.getD i defaultUpRun).metadata.total_rounds).getD 0 ∧
    ((create_agent_runs_from_data runs_data).getD i defaultAgentRun).score_message_count =
      (convertMessages ((runs_data.getD i defaultUpRun).messages)).length ∧
    ((create_agent_runs_from_data runs_data).getD i defaultAgentRun).score_session_id = i + 1 ∧
    (create_agent_runs_from_data runs_data).length = runs_data.length := by
  have hlen : (create_agent_runs_from_data runs_data).length = runs_data.length := by
    simp [create_agent_runs_from_data]
  have hi' : i < (create_agent_runs_from_data runs_data).length := by
    rw [hlen]; exact hi
  have hrd : runs_data.getD i defaultUpRun = runs_data[i] :=
    List.getD_eq_getElem _ _ hi
  have hmain : (create_agent_runs_from_data runs_data).getD i defaultAgentRun =
      { name := "Negotiation Session ".toList ++ (Nat.repr (i + 1)).toList
        description := "Agent negotiation session from ".toList ++
          (runs_data[i]).metadata.filename
        transcript_messages := convertMessages (runs_data[i]).messages
        score_total_rounds := ((runs_data[i]).metadata.total_rounds).getD 0
        score_message_count := (convertMessages (runs_data[i]).messages).length
        score_session_id := i + 1 } := by
    rw [List.getD_eq_getElem _ _ hi']
    simp [create_agent_runs_from_data]
  rw [hmain, hrd]
  exact ⟨rfl, rfl, rfl, hlen⟩

def sampleUpRun : UpRun :=
  { messages := [{ role := "user".toList, content := ['h'] },
                 { role := "assistant".toList, content := ['w'] }],
    metadata := { filename := ['f'], total_rounds := some 3 } }

/-- Witness for C7 at a one-run batch. -/
theorem C7_witness :
    ((create_agent_runs_from_data [sampleUpRun]).getD 0 defaultAgentRun).score_total_rounds = 3 ∧
    ((create_agent_runs_from_data [sampleUpRun]).getD 0 defaultAgentRun).score_message_count = 2 ∧
    ((create_agent_runs_from_data [sampleUpRun]).getD 0 defaultAgentRun).score_session_id = 1 := by
  have h := C7_agent_run_scores [sampleUpRun] 0 (by decide)
  exact ⟨h.1.trans (by decide), h.2.1.trans (by decide), h.2.2.1⟩

/-- C8: the whole batch is submitted in one call; a raising call is
caught and reported as `(False, 0)`, a normal return is reported as
`(True, number of agent runs)` — one agent run per input run, with no
partial-success accounting. -/
theorem C8_upload_error_handling {ε : Type}
    (submit : List AgentRunM → Except ε Unit) (runs_data : List UpRun) :
    (∀ e, submit (create_agent_runs_from_data runs_data) = .error e →
      ingest_to_collection submit runs_data = (false, 0)) ∧
    (∀ u, submit (create_agent_runs_from_data runs_data) = .ok u →
      ingest_to_collection submit runs_data =
        (true, (create_agent_runs_from_data runs_data).length)) ∧
    (create_agent_runs_from_data runs_data).length = runs_data.length := by
  refine ⟨?_, ?_, by simp [create_agent_runs_from_data]⟩
  · intro e he
    simp [ingest_to_collection, he]
  · intro u hu
    simp [ingest_to_collection, hu]

/-- Witness for C8: a raising submission reports `(false, 0)`, a
normal one `(true, count)`. -/
theorem C8_witness :
    ingest_to_collection (fun _ => (Except.error () : Except Unit Unit))
      ([sampleUpRun] : List UpRun) = (false, 0) ∧
    ingest_to_collection (fun _ => (Except.ok () : Except Unit Unit))
      ([sampleUpRun] : List UpRun) = (true, 1) := by
  constructor
  · exact (C8_upload_error_handling
      (fun _ => (Except.error () : Except Unit Unit)) [sampleUpRun]).1 () rfl
  · have h := (C8_upload_error_handling
      (fun _ => (Except.ok () : Except Unit Unit)) [sampleUpRun]).2.1 () rfl
    exact h.trans (by decide)

/-! ## Role filtering in the uploader -/

/-- A message is kept by the uploader exactly when its role is the
string `user` or the string `assistant`. -/
def roleKept (m : Message) : Bool :=
  decide (m.role = "user".toList) || decide (m.role = "assistant".toList)

/-- The typed message a kept source message becomes. -/
def toChatMessage (m : Message) : ChatMessage :=
  if m.role = "user".toList then ChatMessage.user m.content else ChatMessage.assistant m.content

/-- C10: the uploader converts only messages whose role is exactly
`user` or `assistant`, silently dropping all others, so the realized
message count — which is what the `message_count` score reports — can
be strictly smaller than the run's message-list length. -/
theorem C10_role_filtering :
    (∀ msgs : List Message,
      convertMessages msgs = (msgs.filter roleKept).map toChatMessage) ∧
    (∀ msgs : List Message, (convertMessages msgs).length ≤ msgs.length) ∧
    (convertMessages [{ role := "system".toList, content := ['x'] }] = []) ∧
    ((create_agent_runs_from_data
        [{ messages := [{ role := "system".toList, content := ['x'] },
                        { role := "user".toList, content := ['y'] }],
           metadata := { filename := [], total_rounds := none } }]).getD 0
        defaultAgentRun).score_message_count = 1 ∧
    ([{ role := "system".toList, content := ['x'] },
      { role := "user".toList, content := ['y'] }] : List Message).length = 2 := by
  have hmain : ∀ msgs : List Message,
      convertMessages msgs = (msgs.filter roleKept).map toChatMessage := by
    intro msgs
    induction msgs with
    | nil => rfl
    | cons m rest ih =>
      have hstep : convertMessages (m :: rest) =
          (if m.role = "user".toList then [ChatMessage.user m.content]
           else if m.role = "assistant".toList then [ChatMessage.assistant m.content]
           else []) ++ convertMessages rest := rfl
      rw [hstep]
      by_cases hu : m.role = "user".toList
      · have hk : roleKept m = true := by simp [roleKept, hu]
        rw [if_pos hu, List.filter_cons_of_pos hk, List.map_cons, ih]
        rw [show toChatMessage m = ChatMessage.user m.content from by
          simp [toChatMessage, hu]]
        rfl
      · by_cases ha : m.role = "assistant".toList
        · have hk : roleKept m = true := by simp [roleKept, ha]
          rw [if_neg hu, if_pos ha, List.filter_cons_of_pos hk, List.map_cons, ih]
          rw [show toChatMessage m = ChatMessage.assistant m.content from by
            unfold toChatMessage; rw [if_neg hu]]
          rfl
        · have hk : ¬ roleKept m = true := by
            unfold roleKept
            rw [decide_eq_false hu, decide_eq_false ha]
            decide
          rw [if_neg hu, if_neg ha, List.filter_cons_of_neg hk, ih, List.nil_append]
  refine ⟨hmain, ?_, by decide, by decide, by decide⟩
  · intro msgs
    rw [hmain msgs, List.length_map]
    exact List.length_filter_le _ _

end Docent
